import Mathlib

/-!
Shallow embedding of the cohort reschedule engine (the shift-class route:
POST = apply, GET = preview) of the mentiby-SuperMentor repository.

Calendar dates are embedded as integers counting days since the Unix epoch
(1970-01-01, a Thursday), so the JavaScript `Date.getDay()` of day number
`d` is `(d + 4) % 7`.  JavaScript `Date` timestamps are milliseconds; the
route always builds dates at local noon (`newDate + 'T12:00:00'`) except
for `today`, which it truncates to local midnight, so timestamps are
modelled exactly as `86400000 * d + 43200000` (noon) and `86400000 * d`
(midnight).  Descriptive payload columns (subject/topic/material fields)
are omitted from the record: the engine never reads or writes them.
-/

/-- One row of a cohort schedule table (the columns the reschedule engine
reads or writes). -/
structure Session where
  id : Int
  week_number : Int
  session_number : Int
  /-- calendar date, as days since the epoch (the `date DATE` column) -/
  date : Int
  day : String
  session_type : String
deriving DecidableEq, Repr

/-- `Date.getDay()` of the day numbered `d`: 0 = Sunday .. 6 = Saturday. -/
def dayOfWeek (d : Int) : Int := (d + 4) % 7

/-- The `days` lookup array of the route's `getDayName` helper. -/
def dayNames : List String :=
  ["Sunday", "Monday", "Tuesday", "Wednesday", "Thursday", "Friday", "Saturday"]

/-- `getDayName`: weekday name of a date. -/
def getDayName (d : Int) : String := dayNames.getD (dayOfWeek d).toNat ""

/-- `getDayIndex`: name → weekday index, `-1` for an unmapped name
(the `?? -1` default of the record lookup). -/
def getDayIndex (dayName : String) : Int :=
  if dayName = "Sunday" then 0
  else if dayName = "Monday" then 1
  else if dayName = "Tuesday" then 2
  else if dayName = "Wednesday" then 3
  else if dayName = "Thursday" then 4
  else if dayName = "Friday" then 5
  else if dayName = "Saturday" then 6
  else -1

/-- The loop of `findNextDay`: check `result`, else advance one day,
for `fuel` iterations; return the final `result` when fuel runs out. -/
def findNextDayGo (targetDays : List Int) (result : Int) : Nat → Int
  | 0 => result
  | n + 1 =>
    if targetDays.contains (dayOfWeek result) then result
    else findNextDayGo targetDays (result + 1) n

/-- `findNextDay`: first date strictly after `fromDate` whose weekday is in
`targetDays`, scanning `fromDate + 1 .. fromDate + 7` (7 iterations). -/
def findNextDay (fromDate : Int) (targetDays : List Int) : Int :=
  findNextDayGo targetDays (fromDate + 1) 7

/-- Millisecond timestamp of local midnight of day `d`
(`new Date()` followed by `setHours(0,0,0,0)`). -/
def midnightMs (d : Int) : Int := 86400000 * d

/-- Millisecond timestamp of local noon of day `d`
(`new Date(s + 'T12:00:00')`). -/
def noonMs (d : Int) : Int := 86400000 * d + 43200000

/-- State of the week/session renumbering loop:
`currentWeekNumber`, `sessionInWeek`, `weekStartDate`. -/
structure RState where
  week : Int
  pos : Int
  weekStart : Int
deriving DecidableEq, Repr

/-- `Math.floor((sessionDate - weekStartDate) / 86400000)` on the two noon
timestamps.  Both stamps sit at noon, so the quotient is exact. -/
def daysSinceWeekStart (sessionDate weekStart : Int) : Int :=
  (noonMs sessionDate - noonMs weekStart) / 86400000

/-- One iteration of the renumbering loop: start a new week when at least
7 days have passed since the week anchor, then advance the position;
returns the new state and the `(week_number, session_number)` assigned. -/
def renumberStep (st : RState) (d : Int) : RState × Int × Int :=
  if 7 ≤ daysSinceWeekStart d st.weekStart then
    (⟨st.week + 1, 1, d⟩, st.week + 1, 1)
  else
    (⟨st.week, st.pos + 1, st.weekStart⟩, st.week, st.pos + 1)

/-- The renumbering loop over a list of dates, from a given state. -/
def renumberFrom (st : RState) : List Int → List (Int × Int)
  | [] => []
  | d :: ds =>
    let r := renumberStep st d
    r.2 :: renumberFrom r.1 ds

/-- Week/session renumberer: assigns `(week_number, session_number)` pairs
to a (date-ascending) list of dates, anchored at the first date
(`currentWeekNumber = 1`, `sessionInWeek = 0`, `weekStartDate = firstDate`). -/
def renumber : List Int → List (Int × Int)
  | [] => []
  | d :: ds => renumberFrom ⟨1, 0, d⟩ (d :: ds)

/-- The renumberer's assignment for a list of rows (keyed to their dates). -/
def renumberAssign (rows : List Session) : List (Int × Int) :=
  renumber (rows.map (fun s => s.date))

/-- The updates the renumbering pass issues: one `(id, week, session)`
write per row whose stored pair differs from its assigned pair; rows whose
pair is unchanged are skipped. -/
def renumberChanges (rows : List Session) : List (Int × Int × Int) :=
  (rows.zip (renumberAssign rows)).filterMap fun x =>
    if x.1.week_number = x.2.1 ∧ x.1.session_number = x.2.2 then none
    else some (x.1.id, x.2.1, x.2.2)

/-- Insertion into a JavaScript `Set` (keeps first-seen order, drops
later duplicates). -/
def insertUnique (acc : List String) (x : String) : List String :=
  if x ∈ acc then acc else acc ++ [x]

/-- `[...new Set(l)]`: distinct elements of `l` in first-seen order. -/
def uniqueFirstSeen (l : List String) : List String :=
  l.foldl insertUnique []

/-- The day pattern before the fallback: drop contest sessions, take the
distinct `day` values in first-seen order (dropping empty/null, the
`.filter(Boolean)`), map each to its weekday index, drop unmapped names. -/
def rawDayPattern (sessions : List Session) : List Int :=
  let regularSessions := sessions.filter fun s => s.session_type ≠ "contest"
  let uniqueDays := (uniqueFirstSeen (regularSessions.map fun s => s.day)).filter fun d => d ≠ ""
  (uniqueDays.map getDayIndex).filter fun i => i ≠ -1

/-- Day-pattern detection: the raw pattern, or the default
Monday/Wednesday/Friday when it is empty. -/
def detectDayPattern (sessions : List Session) : List Int :=
  let dayPattern := rawDayPattern sessions
  if dayPattern = [] then [1, 3, 5] else dayPattern

/-- The weekday set used for contest sessions: Monday–Friday. -/
def contestDays : List Int := [1, 2, 3, 4, 5]

/-- The cascade over the sessions after the shifted one: starting from the
shifted session's new date, each session's new date is the next date in
the contest set (for contests) or the detected pattern, threaded through. -/
def cascade (cur : Int) (pattern : List Int) : List Session → List (Int × Session)
  | [] => []
  | s :: rest =>
    let next :=
      if s.session_type = "contest" then findNextDay cur contestDays
      else findNextDay cur pattern
    (next, s) :: cascade next pattern rest

/-- A value of the JSON request body / query string: the `sessionId` field
may arrive as a number or as a string. -/
inductive JsonVal where
  | num (n : Int)
  | str (s : String)
deriving DecidableEq, Repr

/-- JavaScript strict equality (`===`) between two JSON scalars: no type
coercion, values of different types are never equal. -/
def jsStrictEq : JsonVal → JsonVal → Bool
  | .num a, .num b => a == b
  | .str a, .str b => a == b
  | _, _ => false

/-- Accumulate the value of the leading decimal digits of a character
list, stopping at the first non-digit (as `parseInt` does). -/
def digitsToNat (acc : Nat) : List Char → Nat
  | [] => acc
  | c :: cs => if c.isDigit then digitsToNat (acc * 10 + (c.toNat - 48)) cs else acc

/-- JavaScript `parseInt` (base 10): an optional sign followed by at least
one digit, reading the longest digit prefix; `none` models `NaN`
(`NaN === anything` is false, so an unparsable id matches no row). -/
def parseIntJs (s : String) : Option Int :=
  match s.data with
  | [] => none
  | '-' :: c :: cs => if c.isDigit then some (-(digitsToNat 0 (c :: cs) : Int)) else none
  | c :: cs => if c.isDigit then some ((digitsToNat 0 (c :: cs) : Int)) else none

/-- The apply (POST) session lookup: `allSessions.findIndex(s => s.id ===
sessionId)` — strict equality of the stored numeric id against the raw
request value. -/
def applyFindSession (sessions : List Session) (sessionId : JsonVal) : Option Session :=
  sessions.find? fun s => jsStrictEq (.num s.id) sessionId

/-- The preview (GET) session lookup: `allSessions.findIndex(s => s.id ===
parseInt(sessionId))` — the query parameter is parsed to an integer first. -/
def previewFindSession (sessions : List Session) (sessionId : String) : Option Session :=
  match parseIntJs sessionId with
  | some n => sessions.find? fun s => s.id = n
  | none => none

/-- Outcome of the shared validation prefix of apply and preview. -/
inductive ValidationOutcome where
  /-- session id not found: HTTP 404 -/
  | notFound
  /-- new date equals the stored date: HTTP 400 -/
  | sameDate
  /-- `newDateObj <= today`: HTTP 400 ("must be greater than today") -/
  | notFuture
  /-- validation passed; the found session -/
  | proceed (s : Session)
deriving DecidableEq, Repr

/-- The validation prefix of the apply path (the preview path runs the
same checks, with `previewFindSession` for the lookup): find the session,
reject same-date, then reject when noon of the new date is not after local
midnight of `today`. -/
def validateShift (today : Int) (sessions : List Session) (sessionId : JsonVal)
    (newDate : Int) : ValidationOutcome :=
  match applyFindSession sessions sessionId with
  | none => .notFound
  | some s =>
    if s.date = newDate then .sameDate
    else if noonMs newDate ≤ midnightMs today then .notFuture
    else .proceed s

/-- One row of the update set built by the cascade: the new date/day for
one session id. -/
structure Update where
  id : Int
  date : Int
  day : String
deriving DecidableEq, Repr

/-- Applying one date/day update to the stored table
(`update({date, day}).eq('id', u.id)`). -/
def applyOne (store : List Session) (u : Update) : List Session :=
  store.map fun s =>
    if s.id = u.id then { s with date := u.date, day := u.day } else s

/-- The per-row update loop of the apply path.  `dbFail id = some m`
means the database rejects the update of row `id` with message `m`.
Returns the stored table after the loop, the ids that succeeded
(`successfulUpdates`) and the collected error strings (`errors`), both in
loop order; a failure never stops the loop. -/
def runUpdates (dbFail : Int → Option String) (store : List Session) :
    List Update → List Session × List Int × List String
  | [] => (store, [], [])
  | u :: rest =>
    match dbFail u.id with
    | some m =>
      let r := runUpdates dbFail store rest
      (r.1, r.2.1, ("Session " ++ toString u.id ++ ": " ++ m) :: r.2.2)
    | none =>
      let r := runUpdates dbFail (applyOne store u) rest
      (r.1, u.id :: r.2.1, r.2.2)

/-- The JSON body (plus HTTP status) the apply path returns after the
update loop. -/
structure ApiResponse where
  status : Nat
  success : Bool
  message : String
  updatedCount : Nat
  errors : List String
deriving DecidableEq, Repr

/-- Response shaping of the apply path: HTTP 207 with `success: false`,
the partial-update message, the succeeded count and the error list when
any update failed; otherwise HTTP 200 with `success: true`. -/
def shiftResponse (successfulUpdates : List Int) (errors : List String)
    (totalUpdates : Nat) : ApiResponse :=
  if errors ≠ [] then
    { status := 207, success := false,
      message := "Partially updated. " ++ toString successfulUpdates.length ++
        " succeeded, " ++ toString errors.length ++ " failed.",
      updatedCount := successfulUpdates.length, errors := errors }
  else
    { status := 200, success := true,
      message := "Successfully shifted class and rescheduled " ++
        toString (totalUpdates - 1) ++ " subsequent classes",
      updatedCount := totalUpdates, errors := [] }

/-- One write of the renumbering pass: set a row's week/session pair. -/
def writePair (store : List Session) (id wn sn : Int) : List Session :=
  store.map fun s =>
    if s.id = id then { s with week_number := wn, session_number := sn } else s

/-- The renumbering pass of the apply path over the re-fetched rows:
write the assigned pair for every row whose stored pair differs. -/
def renumberPass (store : List Session) (rows : List Session) : List Session :=
  (rows.zip (renumberAssign rows)).foldl
    (fun st x =>
      if x.1.week_number = x.2.1 ∧ x.1.session_number = x.2.2 then st
      else writePair st x.1.id x.2.1 x.2.2)
    store

/-- The tail of the apply path: run the date/day update loop, then — only
when the re-fetch succeeded with a non-empty row list — run the
renumbering pass, and shape the response from the loop's results alone.
`refetch = none` models a re-fetch error. -/
def applyPhase (dbFail : Int → Option String) (store : List Session)
    (updates : List Update) (refetch : Option (List Session)) :
    List Session × ApiResponse :=
  let r := runUpdates dbFail store updates
  let store2 :=
    match refetch with
    | some rows => if 0 < rows.length then renumberPass r.1 rows else r.1
    | none => r.1
  (store2, shiftResponse r.2.1 r.2.2 updates.length)

/-- A sample stored row (date = day 50). -/
def demoRow : Session :=
  { id := 1, week_number := 1, session_number := 1, date := 50,
    day := "Saturday", session_type := "regular" }

/-- A sample stored row whose numeric id is 5. -/
def demoRow5 : Session :=
  { id := 5, week_number := 1, session_number := 1, date := 20500,
    day := "Monday", session_type := "regular" }

/-- A one-row table holding `demoRow5`. -/
def demoSessions : List Session := [demoRow5]

/-- A three-row table on day offsets 0, 2, 8 already carrying the
renumberer's assignment (1,1), (1,2), (2,1). -/
def demoNumbered : List Session :=
  [{ id := 1, week_number := 1, session_number := 1, date := 0,
     day := "Thursday", session_type := "regular" },
   { id := 2, week_number := 1, session_number := 2, date := 2,
     day := "Saturday", session_type := "regular" },
   { id := 3, week_number := 2, session_number := 1, date := 8,
     day := "Friday", session_type := "regular" }]

/-- A two-row update set for exercising the update loop. -/
def demoUpdates : List Update :=
  [{ id := 1, date := 10, day := "Sunday" },
   { id := 2, date := 11, day := "Monday" }]

/-- A database stub that rejects the update of row 2 with message "boom"
and accepts every other row. -/
def demoDbFail : Int → Option String :=
  fun i => if i = 2 then some "boom" else none

/-- How one assigned `(week, session)` pair may follow another: same week
with the session number advanced by one, or the next week with the
session number restarted at 1. -/
def stepRel (a b : Int × Int) : Prop :=
  (b.1 = a.1 ∧ b.2 = a.2 + 1) ∨ (b.1 = a.1 + 1 ∧ b.2 = 1)

/-- Strict lexicographic order on `(week, session)` pairs. -/
def pairLt (a b : Int × Int) : Prop :=
  a.1 < b.1 ∨ (a.1 = b.1 ∧ a.2 < b.2)

-- Basic facts about the embedding

theorem daysSinceWeekStart_eq (d w : Int) : daysSinceWeekStart d w = d - w := by
  unfold daysSinceWeekStart noonMs
  have : 86400000 * d + 43200000 - (86400000 * w + 43200000) = 86400000 * (d - w) := by ring
  rw [this]
  omega

theorem dayOfWeek_nonneg (d : Int) : 0 ≤ dayOfWeek d :=
  Int.emod_nonneg _ (by norm_num)

theorem dayOfWeek_lt (d : Int) : dayOfWeek d < 7 :=
  Int.emod_lt_of_pos _ (by norm_num)

theorem findNextDayGo_ge (t : List Int) : ∀ (n : Nat) (r : Int), r ≤ findNextDayGo t r n := by
  intro n
  induction n with
  | zero => intro r; simp [findNextDayGo]
  | succ m ih =>
    intro r
    unfold findNextDayGo
    split
    · exact le_refl r
    · exact le_trans (by omega) (ih (r + 1))

theorem findNextDay_gt (d : Int) (t : List Int) : d < findNextDay d t := by
  have h := findNextDayGo_ge t 7 (d + 1)
  unfold findNextDay
  omega

theorem findNextDayGo_nomatch (t : List Int) (h : ∀ x ∈ t, x < 0 ∨ 7 ≤ x) :
    ∀ (n : Nat) (r : Int), findNextDayGo t r n = r + n := by
  intro n
  induction n with
  | zero => intro r; simp [findNextDayGo]
  | succ m ih =>
    intro r
    unfold findNextDayGo
    have hc : t.contains (dayOfWeek r) = false := by
      show t.elem (dayOfWeek r) = false
      rw [List.elem_eq_mem, decide_eq_false_iff_not]
      intro hmem
      have := h _ hmem
      have h1 := dayOfWeek_nonneg r
      have h2 := dayOfWeek_lt r
      omega
    rw [hc]
    simp only [Bool.false_eq_true, if_false]
    rw [ih (r + 1)]
    push_cast
    ring

theorem mem_zip_map {α β : Type} (f : α → β) :
    ∀ (l : List α) (p : α × β), p ∈ l.zip (l.map f) → f p.1 = p.2 := by
  intro l
  induction l with
  | nil => intro p hp; simp at hp
  | cons a as ih =>
    intro p hp
    rw [List.map_cons, List.zip_cons_cons, List.mem_cons] at hp
    rcases hp with rfl | hp
    · rfl
    · exact ih p hp

-- Claim theorems

/-- C1 (code bug): the past-date validation compares noon of the new date
against local midnight of today, so `newDateObj <= today` holds exactly
when `newDate < today` — a request whose new date IS the current calendar
day passes validation and proceeds to mutate rows, although the code's
own error message ("Cannot shift to past or current date") and the spec
demand a 400.  Concretely, with today = day 100 and a stored row dated
day 50, shifting to day 100 validates as `proceed`. -/
theorem dateCheck_allows_today :
    (∀ t n : Int, decide (noonMs n ≤ midnightMs t) = decide (n < t)) ∧
    validateShift 100 [demoRow] (JsonVal.num 1) 100 = ValidationOutcome.proceed demoRow := by
  constructor
  · intro t n
    rw [decide_eq_decide]
    unfold noonMs midnightMs
    omega
  · rfl

/-- C2 (counterexample): with an empty target set the 7-iteration scan of
`findNextDay` exhausts without a match and returns start-date + 8, not
start-date + 7 as the claim states. -/
theorem findNextDay_fallback_cex : ¬ (findNextDay 0 [] = 0 + 7) := by decide

/-- C2 (amended): whenever the target set matches no weekday (every
element is outside 0..6, e.g. the set is empty), `findNextDay` returns
start-date + 8 — one day past the last value examined, start-date + 7. -/
theorem findNextDay_fallback (d : Int) (t : List Int)
    (h : ∀ x ∈ t, x < 0 ∨ 7 ≤ x) : findNextDay d t = d + 8 := by
  unfold findNextDay
  rw [findNextDayGo_nomatch t h 7 (d + 1)]
  push_cast
  ring

/-- C2 (witness): the amended theorem at the empty target set. -/
theorem findNextDay_fallback_wit : findNextDay 0 [] = 0 + 8 :=
  findNextDay_fallback 0 [] (by simp)

/-- C10 (confirmed): the apply path matches `sessionId` against the stored
numeric id with strict equality and no coercion, so any string-typed
`sessionId` — here even the string "5" naming the existing numeric id 5 —
matches no row and validation answers `notFound` (HTTP 404), while the
preview path parses its query parameter with `parseInt` first and does
find the row. -/
theorem applyLookup_string_never_matches (sessions : List Session) (s : String)
    (today nd : Int) :
    applyFindSession sessions (JsonVal.str s) = none ∧
    validateShift today sessions (JsonVal.str s) nd = ValidationOutcome.notFound ∧
    applyFindSession demoSessions (JsonVal.str "5") = none ∧
    previewFindSession demoSessions "5" = some demoRow5 := by
  have h1 : applyFindSession sessions (JsonVal.str s) = none := by
    rw [applyFindSession, List.find?_eq_none]
    intro x _
    simp [jsStrictEq]
  refine ⟨h1, ?_, by decide, by decide⟩
  rw [validateShift, h1]

/-- C5 (confirmed): the renumbering loop starts a new week — week
incremented, position reset to 1, week anchor re-set to the session's
date — exactly when the session lies at least 7 days after the current
week anchor, and otherwise only advances the position; on day offsets
0, 2, 8 the assigned pairs are (1,1), (1,2), (2,1). -/
theorem renumber_week_boundary (st : RState) (d : Int) :
    ((renumberStep st d).2.1 = st.week + 1 ↔ 7 ≤ d - st.weekStart) ∧
    (7 ≤ d - st.weekStart →
      renumberStep st d = (⟨st.week + 1, 1, d⟩, st.week + 1, 1)) ∧
    (d - st.weekStart < 7 →
      renumberStep st d = (⟨st.week, st.pos + 1, st.weekStart⟩, st.week, st.pos + 1)) ∧
    renumber [0, 2, 8] = [(1, 1), (1, 2), (2, 1)] := by
  have hds := daysSinceWeekStart_eq d st.weekStart
  refine ⟨?_, ?_, ?_, by decide⟩
  · unfold renumberStep
    rw [hds]
    split_ifs with h
    · simp [h]
    · simp only
      constructor <;> intro h2 <;> omega
  · intro h
    unfold renumberStep
    rw [hds, if_pos h]
  · intro h
    unfold renumberStep
    rw [hds, if_neg (by omega)]

/-- C5 (witness): the boundary theorem at a week break (day 8 against
anchor 0) and at a non-break (day 2 against anchor 0). -/
theorem renumber_week_boundary_wit :
    renumberStep ⟨1, 0, 0⟩ 8 = (⟨2, 1, 8⟩, 2, 1) ∧
    renumberStep ⟨1, 1, 0⟩ 2 = (⟨1, 2, 0⟩, 1, 2) :=
  ⟨(renumber_week_boundary ⟨1, 0, 0⟩ 8).2.1 (by norm_num),
   (renumber_week_boundary ⟨1, 1, 0⟩ 2).2.2.1 (by norm_num)⟩

/-- C4 (confirmed): when every stored `(week_number, session_number)` pair
already equals the renumberer's assignment for the list, the renumbering
pass finds no row to change and issues no update — renumbering an
already-renumbered list is a no-op. -/
theorem renumber_idempotent (rows : List Session)
    (h : rows.map (fun s => (s.week_number, s.session_number)) = renumberAssign rows) :
    renumberChanges rows = [] := by
  rw [renumberChanges, List.filterMap_eq_nil_iff]
  intro p hp
  rw [← h] at hp
  have hpair := mem_zip_map (fun s => (s.week_number, s.session_number)) rows p hp
  have h1 : p.1.week_number = p.2.1 := congrArg Prod.fst hpair
  have h2 : p.1.session_number = p.2.2 := congrArg Prod.snd hpair
  rw [if_pos ⟨h1, h2⟩]

/-- C4 (witness): the idempotence theorem on the already-renumbered
three-row table. -/
theorem renumber_idempotent_wit : renumberChanges demoNumbered = [] :=
  renumber_idempotent demoNumbered (by decide)

theorem renumberFrom_chain (ds : List Int) : ∀ st : RState,
    List.Chain stepRel (st.week, st.pos) (renumberFrom st ds) := by
  induction ds with
  | nil => intro st; exact List.Chain.nil
  | cons d ds ih =>
    intro st
    show List.Chain stepRel (st.week, st.pos)
      ((renumberStep st d).2 :: renumberFrom (renumberStep st d).1 ds)
    constructor
    · unfold renumberStep stepRel
      split_ifs <;> simp
    · have hkey : ((renumberStep st d).1.week, (renumberStep st d).1.pos) =
          (renumberStep st d).2 := by
        unfold renumberStep
        split_ifs <;> rfl
      have h := ih (renumberStep st d).1
      rwa [hkey] at h

/-- C6 (confirmed): on a date-ascending list the renumberer's assigned
pairs follow each other by either advancing the session number within the
week or incrementing the week with the session number restarted at 1; in
particular they are strictly increasing in lexicographic order and
pairwise distinct. -/
theorem renumber_pairs_ordered (ds : List Int) (hs : List.Chain' (· ≤ ·) ds) :
    List.Chain' stepRel (renumber ds) ∧
    List.Pairwise pairLt (renumber ds) ∧
    List.Pairwise (fun a b => a ≠ b) (renumber ds) := by
  have hchain : List.Chain' stepRel (renumber ds) := by
    cases ds with
    | nil => simp [renumber]
    | cons d ds =>
      have h : List.Chain' stepRel (((1 : Int), (0 : Int)) :: renumber (d :: ds)) :=
        renumberFrom_chain (d :: ds) ⟨1, 0, d⟩
      exact h.tail
  have hlex : List.Chain' pairLt (renumber ds) := by
    refine hchain.imp ?_ 
    intro a b hab
    unfold stepRel at hab
    unfold pairLt
    rcases hab with ⟨h1, h2⟩ | ⟨h1, h2⟩
    · right
      exact ⟨h1.symm, by omega⟩
    · left
      omega
  haveI : IsTrans (Int × Int) pairLt := by
    constructor
    intro a b c hab hbc
    unfold pairLt at *
    omega
  have hpw : List.Pairwise pairLt (renumber ds) := List.chain'_iff_pairwise.mp hlex
  refine ⟨hchain, hpw, hpw.imp ?_⟩
  intro a b hab
  intro he
  rw [he] at hab
  unfold pairLt at hab
  omega

/-- C6 (witness): the ordering theorem on the ascending date list
[0, 2, 8]. -/
theorem renumber_pairs_ordered_wit :
    List.Chain' stepRel (renumber [0, 2, 8]) ∧
    List.Pairwise pairLt (renumber [0, 2, 8]) ∧
    List.Pairwise (fun a b => a ≠ b) (renumber [0, 2, 8]) :=
  renumber_pairs_ordered [0, 2, 8] (by norm_num [List.chain'_cons, List.chain'_singleton])

theorem getDayIndex_range (s : String) :
    getDayIndex s = -1 ∨ (0 ≤ getDayIndex s ∧ getDayIndex s < 7) := by
  unfold getDayIndex
  split_ifs <;> norm_num


theorem getDayIndex_mem (a : String) (ha : getDayIndex a ≠ -1) : a ∈ dayNames := by
  unfold getDayIndex at ha
  split_ifs at ha <;> first | exact absurd rfl ha | (subst_vars; decide)

theorem getDayIndex_inj (a b : String) (ha : getDayIndex a ≠ -1)
    (hab : getDayIndex a = getDayIndex b) : a = b := by
  have hb : getDayIndex b ≠ -1 := by rw [← hab]; exact ha
  have key : ∀ x ∈ dayNames, ∀ y ∈ dayNames, getDayIndex x = getDayIndex y → x = y := by
    decide
  exact key a (getDayIndex_mem a ha) b (getDayIndex_mem b hb) hab

theorem insertUnique_nodup (acc : List String) (x : String) (h : acc.Nodup) :
    (insertUnique acc x).Nodup := by
  unfold insertUnique
  split_ifs with hx
  · exact h
  · exact h.append (List.nodup_singleton x) (by simpa using hx)

theorem foldl_insertUnique_nodup (l : List String) :
    ∀ acc : List String, acc.Nodup → (l.foldl insertUnique acc).Nodup := by
  induction l with
  | nil => intro acc h; exact h
  | cons a as ih => intro acc h; exact ih _ (insertUnique_nodup acc a h)

theorem uniqueFirstSeen_nodup (l : List String) : (uniqueFirstSeen l).Nodup :=
  foldl_insertUnique_nodup l [] List.nodup_nil

theorem rawDayPattern_range (sessions : List Session) :
    ∀ i ∈ rawDayPattern sessions, 0 ≤ i ∧ i < 7 := by
  intro i hi
  unfold rawDayPattern at hi
  rw [List.mem_filter] at hi
  obtain ⟨hmem, hne⟩ := hi
  rw [List.mem_map] at hmem
  obtain ⟨s, _, rfl⟩ := hmem
  simp only [ne_eq, decide_not, Bool.not_eq_true', decide_eq_false_iff_not] at hne
  rcases getDayIndex_range s with h | h
  · exact absurd h hne
  · exact h

theorem rawDayPattern_nodup (sessions : List Session) : (rawDayPattern sessions).Nodup := by
  unfold rawDayPattern
  rw [List.filter_map]
  apply List.Nodup.map_on
  · intro x hx y hy hxy
    rw [List.mem_filter] at hx
    have hxne : getDayIndex x ≠ -1 := by
      have h2 := hx.2
      simp only [Function.comp_apply] at h2
      exact of_decide_eq_true h2
    exact getDayIndex_inj x y hxne hxy
  · exact List.Nodup.filter _ (List.Nodup.filter _ (uniqueFirstSeen_nodup _))

/-- C7 (confirmed): the day-pattern detector (a pure function of the
session list) always returns a non-empty list of distinct valid weekday
indices (each in 0..6): it is the contest-free, first-seen-deduplicated,
unmapped-dropped index list when that is non-empty, and the
Monday/Wednesday/Friday fallback [1, 3, 5] exactly when that raw list is
empty. -/
theorem detectDayPattern_spec (sessions : List Session) :
    detectDayPattern sessions ≠ [] ∧
    (∀ i ∈ detectDayPattern sessions, 0 ≤ i ∧ i < 7) ∧
    (detectDayPattern sessions).Nodup ∧
    (rawDayPattern sessions = [] → detectDayPattern sessions = [1, 3, 5]) ∧
    (rawDayPattern sessions ≠ [] → detectDayPattern sessions = rawDayPattern sessions) := by
  simp only [detectDayPattern]
  split_ifs with h
  · refine ⟨by decide, by decide, by decide, fun _ => rfl, fun hne => absurd h hne⟩
  · exact ⟨h, rawDayPattern_range sessions, rawDayPattern_nodup sessions,
      fun he => absurd he h, fun _ => rfl⟩

/-- C7 (witness): the detector on the one-row Monday table (raw pattern
[1], no fallback) and on the empty table (fallback [1, 3, 5]). -/
theorem detectDayPattern_spec_wit :
    detectDayPattern demoSessions ≠ [] ∧
    detectDayPattern ([] : List Session) = [1, 3, 5] :=
  ⟨(detectDayPattern_spec demoSessions).1,
   (detectDayPattern_spec ([] : List Session)).2.2.2.1 (by decide)⟩

theorem findNextDayGo_mem (t : List Int) :
    ∀ (n : Nat) (r : Int), (∃ k : Nat, k < n ∧ dayOfWeek (r + k) ∈ t) →
      dayOfWeek (findNextDayGo t r n) ∈ t := by
  intro n
  induction n with
  | zero => intro r h; obtain ⟨k, hk, _⟩ := h; omega
  | succ m ih =>
    intro r h
    unfold findNextDayGo
    rcases hc : t.contains (dayOfWeek r) with hf | ht
    · simp only [hc, Bool.false_eq_true, if_false]
      obtain ⟨k, hk, hmem⟩ := h
      have hrne : dayOfWeek r ∉ t := by
        intro habs
        have : t.contains (dayOfWeek r) = true := by
          show t.elem (dayOfWeek r) = true
          rw [List.elem_eq_mem, decide_eq_true_iff]
          exact habs
        rw [hc] at this
        exact Bool.noConfusion this
      have hkpos : k ≠ 0 := by
        intro hk0
        rw [hk0] at hmem
        simp at hmem
        exact hrne hmem
      obtain ⟨k', rfl⟩ := Nat.exists_eq_succ_of_ne_zero hkpos
      refine ih (r + 1) ⟨k', by omega, ?_⟩
      have harg : r + 1 + (k' : Int) = r + ((k' + 1 : Nat) : Int) := by push_cast; ring
      rw [harg]
      exact hmem
    · simp only [hc, if_true]
      show dayOfWeek r ∈ t
      have : t.elem (dayOfWeek r) = true := hc
      rw [List.elem_eq_mem, decide_eq_true_iff] at this
      exact this

theorem dayOfWeek_window (t : List Int) (r : Int) (h : ∃ x ∈ t, 0 ≤ x ∧ x < 7) :
    ∃ k : Nat, k < 7 ∧ dayOfWeek (r + k) ∈ t := by
  obtain ⟨x, hxt, hx0, hx7⟩ := h
  have hm : (0 : Int) ≤ (x - (r + 4)) % 7 := Int.emod_nonneg _ (by norm_num)
  have hl : (x - (r + 4)) % 7 < 7 := Int.emod_lt_of_pos _ (by norm_num)
  refine ⟨((x - (r + 4)) % 7).toNat, by omega, ?_⟩
  have hcast : ((((x - (r + 4)) % 7).toNat : Int)) = (x - (r + 4)) % 7 :=
    Int.toNat_of_nonneg hm
  rw [hcast]
  have : dayOfWeek (r + (x - (r + 4)) % 7) = x := by
    unfold dayOfWeek
    omega
  rw [this]
  exact hxt

theorem findNextDay_mem (d : Int) (t : List Int) (h : ∃ x ∈ t, 0 ≤ x ∧ x < 7) :
    dayOfWeek (findNextDay d t) ∈ t :=
  findNextDayGo_mem t 7 (d + 1) (dayOfWeek_window t (d + 1) h)

theorem detectDayPattern_valid (sessions : List Session) :
    ∃ x ∈ detectDayPattern sessions, 0 ≤ x ∧ x < 7 := by
  simp only [detectDayPattern]
  split_ifs with h
  · exact ⟨1, by decide, by decide⟩
  · obtain ⟨x, hx⟩ := List.exists_mem_of_ne_nil _ h
    exact ⟨x, hx, rawDayPattern_range sessions x hx⟩

theorem cascade_chain (pattern : List Int) :
    ∀ (rest : List Session) (cur : Int),
      List.Chain (· < ·) cur ((cascade cur pattern rest).map Prod.fst) := by
  intro rest
  induction rest with
  | nil => intro cur; exact List.Chain.nil
  | cons s ss ih =>
    intro cur
    simp only [cascade, List.map_cons]
    split_ifs with hc
    · exact List.Chain.cons (findNextDay_gt cur contestDays) (ih _)
    · exact List.Chain.cons (findNextDay_gt cur pattern) (ih _)

theorem cascade_mem (pattern : List Int) (hp : ∃ x ∈ pattern, 0 ≤ x ∧ x < 7) :
    ∀ (rest : List Session) (cur : Int) (p : Int × Session), p ∈ cascade cur pattern rest →
      dayOfWeek p.1 ∈ (if p.2.session_type = "contest" then contestDays else pattern) := by
  intro rest
  induction rest with
  | nil => intro cur p h; simp [cascade] at h
  | cons s ss ih =>
    intro cur p h
    simp only [cascade, List.mem_cons] at h
    rcases h with rfl | h
    · simp only
      split_ifs with hc
      · exact findNextDay_mem cur contestDays ⟨1, by decide, by decide⟩
      · exact findNextDay_mem cur pattern hp
    · exact ih _ p h

/-- C3 (confirmed): for any session list, shift position and valid new
date, the dates the cascade computes for the sessions after the shifted
one (taken in the stored week/session order) form a strictly increasing
chain starting strictly after the shifted session's new date, and each
lands on a weekday of the detected day pattern — or on Monday–Friday for
sessions whose `session_type` is "contest". -/
theorem cascade_dates_valid (sessions : List Session) (sessionIndex : Nat) (newDate : Int)
    (pattern : List Int) (hp : pattern = detectDayPattern sessions) :
    List.Chain (· < ·) newDate
      ((cascade newDate pattern (sessions.drop (sessionIndex + 1))).map Prod.fst) ∧
    ∀ p ∈ cascade newDate pattern (sessions.drop (sessionIndex + 1)),
      dayOfWeek p.1 ∈ (if p.2.session_type = "contest" then contestDays else pattern) := by
  constructor
  · exact cascade_chain pattern _ newDate
  · intro p hmem
    exact cascade_mem pattern (hp ▸ detectDayPattern_valid sessions) _ newDate p hmem

/-- C3 (witness): the cascade theorem on the three-row table, shifting
the first session to day 10. -/
theorem cascade_dates_valid_wit :
    List.Chain (· < ·) 10
      ((cascade 10 (detectDayPattern demoNumbered) (demoNumbered.drop 1)).map Prod.fst) ∧
    ∀ p ∈ cascade 10 (detectDayPattern demoNumbered) (demoNumbered.drop 1),
      dayOfWeek p.1 ∈ (if p.2.session_type = "contest" then contestDays
        else detectDayPattern demoNumbered) :=
  cascade_dates_valid demoNumbered 0 10 (detectDayPattern demoNumbered) rfl

theorem runUpdates_split (dbFail : Int → Option String) :
    ∀ (updates : List Update) (store : List Session),
      (runUpdates dbFail store updates).2.1 =
        (updates.filter fun u => (dbFail u.id).isNone).map (fun u => u.id) ∧
      (runUpdates dbFail store updates).2.2 =
        (updates.filter fun u => (dbFail u.id).isSome).map
          (fun u => "Session " ++ toString u.id ++ ": " ++ ((dbFail u.id).getD "")) ∧
      (runUpdates dbFail store updates).1 =
        (updates.filter fun u => (dbFail u.id).isNone).foldl applyOne store := by
  intro updates
  induction updates with
  | nil => intro store; exact ⟨rfl, rfl, rfl⟩
  | cons u rest ih =>
    intro store
    cases hdb : dbFail u.id with
    | some m =>
      have h := ih store
      simp only [runUpdates, hdb, List.filter_cons, Option.isNone_some, Option.isSome_some,
        Bool.false_eq_true, if_false, if_true, List.map_cons, Option.getD_some, List.foldl_cons]
      exact ⟨h.1, by rw [h.2.1], h.2.2⟩
    | none =>
      have h := ih (applyOne store u)
      simp only [runUpdates, hdb, List.filter_cons, Option.isNone_none, Option.isSome_none,
        Bool.false_eq_true, if_false, if_true, List.map_cons, List.foldl_cons]
      exact ⟨by rw [h.1], h.2.1, by rw [h.2.2]⟩

theorem runUpdates_total (dbFail : Int → Option String) :
    ∀ (updates : List Update) (store : List Session),
      (runUpdates dbFail store updates).2.1.length +
        (runUpdates dbFail store updates).2.2.length = updates.length := by
  intro updates
  induction updates with
  | nil => intro store; rfl
  | cons u rest ih =>
    intro store
    cases hdb : dbFail u.id with
    | some m =>
      simp only [runUpdates, hdb, List.length_cons]
      rw [← ih store]
      omega
    | none =>
      simp only [runUpdates, hdb, List.length_cons]
      rw [← ih (applyOne store u)]
      omega

/-- C8 (confirmed): a failed per-row update never stops the loop — every
update is attempted (succeeded plus failed counts sum to the total), the
ids that succeed are exactly those the database accepts and their updates
stay applied to the store in order (no rollback), the error messages are
collected per failed id, and when at least one failed the response is
HTTP 207 with `success: false`, a message, the succeeded count and the
collected error list. -/
theorem partial_failure_response (dbFail : Int → Option String) (store : List Session)
    (updates : List Update)
    (h : (runUpdates dbFail store updates).2.2 ≠ []) :
    (runUpdates dbFail store updates).2.1.length +
      (runUpdates dbFail store updates).2.2.length = updates.length ∧
    (runUpdates dbFail store updates).2.1 =
      (updates.filter fun u => (dbFail u.id).isNone).map (fun u => u.id) ∧
    (runUpdates dbFail store updates).2.2 =
      (updates.filter fun u => (dbFail u.id).isSome).map
        (fun u => "Session " ++ toString u.id ++ ": " ++ ((dbFail u.id).getD "")) ∧
    (runUpdates dbFail store updates).1 =
      (updates.filter fun u => (dbFail u.id).isNone).foldl applyOne store ∧
    shiftResponse (runUpdates dbFail store updates).2.1
        (runUpdates dbFail store updates).2.2 updates.length =
      { status := 207, success := false,
        message := "Partially updated. " ++
          toString (runUpdates dbFail store updates).2.1.length ++ " succeeded, " ++
          toString (runUpdates dbFail store updates).2.2.length ++ " failed.",
        updatedCount := (runUpdates dbFail store updates).2.1.length,
        errors := (runUpdates dbFail store updates).2.2 } := by
  refine ⟨runUpdates_total dbFail updates store, (runUpdates_split dbFail updates store).1,
    (runUpdates_split dbFail updates store).2.1, (runUpdates_split dbFail updates store).2.2, ?_⟩
  unfold shiftResponse
  rw [if_pos h]

/-- C8 (witness): with a database stub failing exactly row 2, the
two-element update set is fully attempted: 1 success plus 1 failure. -/
theorem partial_failure_response_wit :
    (runUpdates demoDbFail [] demoUpdates).2.1.length +
      (runUpdates demoDbFail [] demoUpdates).2.2.length = demoUpdates.length :=
  (partial_failure_response demoDbFail [] demoUpdates (by decide)).1

/-- C9 (confirmed): when the post-update re-fetch fails (`none`) or
returns no rows (`some []`), the renumbering pass is skipped — the store
stays exactly as the date/day update loop left it — while the response is
computed from the update loop's results alone, hence identical for every
re-fetch outcome; in particular, when all date/day updates succeeded it
still reports `success: true` with HTTP 200 and no indication that
renumbering did not run. -/
theorem refetch_failure_skips_renumber (dbFail : Int → Option String)
    (store : List Session) (updates : List Update) :
    (applyPhase dbFail store updates none).1 = (runUpdates dbFail store updates).1 ∧
    (applyPhase dbFail store updates (some [])).1 = (runUpdates dbFail store updates).1 ∧
    (∀ refetch refetch' : Option (List Session),
      (applyPhase dbFail store updates refetch).2 =
        (applyPhase dbFail store updates refetch').2) ∧
    ((runUpdates dbFail store updates).2.2 = [] →
      (applyPhase dbFail store updates none).2.success = true ∧
      (applyPhase dbFail store updates none).2.status = 200) := by
  refine ⟨rfl, rfl, fun r r' => rfl, fun h => ?_⟩
  have hresp : (applyPhase dbFail store updates none).2 =
      shiftResponse (runUpdates dbFail store updates).2.1
        (runUpdates dbFail store updates).2.2 updates.length := rfl
  rw [hresp, h]
  unfold shiftResponse
  rw [if_neg (by simp)]
  exact ⟨rfl, rfl⟩

/-- C9 (witness): with an all-accepting database stub and a failed
re-fetch, the response still reports success with HTTP 200. -/
theorem refetch_failure_skips_renumber_wit :
    (applyPhase (fun _ => none) [] demoUpdates none).2.success = true ∧
    (applyPhase (fun _ => none) [] demoUpdates none).2.status = 200 :=
  (refetch_failure_skips_renumber (fun _ => none) [] demoUpdates).2.2.2 (by decide)
